import Mathlib

/-!
Verification of the Monte Carlo LEO decay wrapper
(src/GMAT-Monte-Carlo-Wrapper/montecarlo_wrapper.cpp.cpp).

Modelling conventions (shallow embedding):
* C `double` values are modelled as exact rationals (ℚ).  All numeric
  literals appearing in the program (epsilon 1e-9, the parameter ranges,
  report values) are decimal literals that the model keeps exact.
* The C library pseudo-random generator (`srand` / `rand`) is modelled
  abstractly by a `RandModel`: a state-transition pair (`srand` builds an
  internal state from a seed, `next` yields one output and the next
  state).  The program only relies on `rand` being a deterministic
  function of the internal state, which the model captures; `rand`
  outputs range over 0 .. RAND_MAX inclusive, per the C contract.
* Files are modelled as `Option (List Char)`: `none` is a file that
  cannot be opened, `some cs` is its byte content.
* The MPI exchange transports a worker `Result` verbatim (raw bytes of
  the struct); it is modelled as the identity on `Result`.
-/

namespace MonteCarlo

/-- `struct Trial` (montecarlo_wrapper.cpp lines 39-43): initial
altitude, drag coefficient, area-to-mass ratio. -/
structure Trial where
  h0_km : ℚ
  Cd : ℚ
  A2M : ℚ
deriving DecidableEq

/-- `struct Result` (lines 45-51): trial index, lifetime in days,
final altitude, the originating trial, success flag. -/
structure Result where
  id : ℕ
  lifetime_days : ℚ
  end_alt_km : ℚ
  trial : Trial
  ok : Bool
deriving DecidableEq

/-- `GLOBAL_SEED` (line 35). -/
def GLOBAL_SEED : ℕ := 1234

/-- `RAND_MAX` of glibc, the divisor used in `urand` (line 57). -/
def RAND_MAX : ℕ := 2147483647

/-- The default epsilon of `isBetter` (line 217): `1e-9`. -/
def eps : ℚ := 1 / 1000000000

/-- `urand()` (lines 56-58): `rand() / (double)RAND_MAX`, applied to one
raw `rand()` output `n` (which the C contract puts in 0 .. RAND_MAX
inclusive). -/
def urand (n : ℕ) : ℚ := (n : ℚ) / (RAND_MAX : ℚ)

/-- `generateRandomLEO` (lines 60-64) applied to the three consecutive
`rand()` outputs `r0 r1 r2` it consumes via `urand`. -/
def generateRandomLEO (r0 r1 r2 : ℕ) : Trial :=
  { h0_km := 500 + 500 * urand r0
    Cd := 2 + 0.6 * urand r1
    A2M := 0.005 + 0.045 * urand r2 }

/-- Abstract model of the C library generator: `srand` turns a seed into
an internal state, `next` produces one `rand()` output and the successor
state. -/
structure RandModel where
  srand : ℕ → ℕ
  next : ℕ → ℕ × ℕ

/-- Three consecutive `rand()` draws from state `st`, fed to
`generateRandomLEO`; returns the trial and the final generator state. -/
def drawTrial (M : RandModel) (st : ℕ) : Trial × ℕ :=
  let p0 := M.next st
  let p1 := M.next p0.2
  let p2 := M.next p1.2
  (generateRandomLEO p0.1 p1.1 p2.1, p2.2)

/-- The trial produced for index `i` under global seed `seed`: the loop
body (lines 234-235) calls `srand(seed + i)` and then samples three
uniforms, so the trial is this pure function of `(seed, i)`. -/
def trialAt (M : RandModel) (seed i : ℕ) : Trial :=
  (drawTrial M (M.srand (seed + i))).1

/-- The trial-generation part of the worker loop (lines 233-235):
iterate over the index list assigned to this rank, threading the global
generator state; each iteration reseeds with `seed + i` and then draws
the trial.  Returns the (index, trial) pairs in loop order. -/
def workerGen (M : RandModel) (seed : ℕ) : List ℕ → ℕ → List (ℕ × Trial)
  | [], _ => []
  | i :: is, _st =>
    let st1 := M.srand (seed + i)
    let d := drawTrial M st1
    (i, d.1) :: workerGen M seed is d.2

/-- One step of the strided loop head `for (i = rank; i < n; i += size)`
(line 233), with explicit fuel bounding the iteration count (the loop
runs at most `N` times when the stride is positive). -/
def strideAux (N W : ℕ) : ℕ → ℕ → List ℕ
  | 0, _ => []
  | fuel + 1, r => if r < N then r :: strideAux N W fuel (r + W) else []

/-- The list of trial indices processed by rank `r` among `W` workers
for `N` total trials: `r, r+W, r+2W, ...` below `N`, in loop order. -/
def strideIndices (N W r : ℕ) : List ℕ := strideAux N W N r

/-- Whitespace skipped by C++ stream extraction (classic locale). -/
def isWs (c : Char) : Bool :=
  c = ' ' || c = '\t' || c = '\r' || c = '\n' || c = '\x0b' || c = '\x0c'

/-- Drop leading stream whitespace, as `operator>>` does. -/
def skipWs : List Char → List Char
  | [] => []
  | c :: cs => if isWs c then skipWs cs else c :: cs

/-- Longest leading run of decimal digits, and the rest. -/
def takeDigits : List Char → List Char × List Char
  | [] => ([], [])
  | c :: cs =>
    if c.isDigit then
      let d := takeDigits cs
      (c :: d.1, d.2)
    else ([], c :: cs)

/-- Value of a run of decimal digits. -/
def digitsToNat (ds : List Char) : ℕ := ds.foldl (fun a c => 10 * a + (c.toNat - 48)) 0

/-- The text of one numeric token accepted by `istream >> double`:
sign, integer-part value, fraction digits (value and count), exponent
sign and value.  Kept in ℕ so that lexing is kernel-computable; the ℚ
value is assembled by `NumTok.val`. -/
structure NumTok where
  neg : Bool
  ip : ℕ
  fp : ℕ
  fplen : ℕ
  eneg : Bool
  ev : ℕ
deriving DecidableEq

/-- The exact numeric value of a lexed token. -/
def NumTok.val (t : NumTok) : ℚ :=
  let m : ℚ := (t.ip : ℚ) + (t.fp : ℚ) / 10 ^ t.fplen
  let s : ℚ := if t.neg then -m else m
  if t.eneg then s / 10 ^ t.ev else s * 10 ^ t.ev

/-- Optional exponent part after the mantissa.  `num_get` accepts an
`e`/`E` only when sign-then-digits follow; a bare `e` makes the whole
extraction fail (the accumulated text does not convert). -/
def lexExponent (tok : NumTok) (cs : List Char) : Option (NumTok × List Char) :=
  match cs with
  | [] => some (tok, [])
  | c :: t =>
    if c = 'e' || c = 'E' then
      let sgn : Bool × List Char :=
        match t with
        | '-' :: u => (true, u)
        | '+' :: u => (false, u)
        | _ => (false, t)
      let ds := takeDigits sgn.2
      if ds.1.isEmpty then none
      else some ({ tok with eneg := sgn.1, ev := digitsToNat ds.1 }, ds.2)
    else some (tok, c :: t)

/-- Lex one `double` token at the head of `cs` (no leading whitespace):
optional sign, digits with optional decimal point (at least one digit in
the mantissa), optional exponent.  Returns the token and the rest, or
`none` when extraction fails. -/
def lexNumber (cs : List Char) : Option (NumTok × List Char) :=
  let sgn : Bool × List Char :=
    match cs with
    | '-' :: t => (true, t)
    | '+' :: t => (false, t)
    | _ => (false, cs)
  let ip := takeDigits sgn.2
  let fr : List Char × List Char :=
    match ip.2 with
    | '.' :: t => takeDigits t
    | _ => ([], ip.2)
  if ip.1.isEmpty && fr.1.isEmpty then none
  else
    lexExponent
      { neg := sgn.1, ip := digitsToNat ip.1, fp := digitsToNat fr.1
        fplen := fr.1.length, eneg := false, ev := 0 } fr.2

/-- One `iss >> x` step: skip whitespace, then lex a number. -/
def extractNum (cs : List Char) : Option (NumTok × List Char) := lexNumber (skipWs cs)

/-- `iss >> a >> b` on one line (lines 84-85 and 89-90): both leading
numeric tokens must extract; anything after the second is ignored. -/
def parseTwoToks (line : List Char) : Option (NumTok × NumTok) :=
  match extractNum line with
  | none => none
  | some (a, rest) =>
    match extractNum rest with
    | none => none
    | some (b, _) => some (a, b)

/-- Split at the first newline: the line content and the rest. -/
def splitLine : List Char → List Char × List Char
  | [] => ([], [])
  | c :: cs =>
    if c = '\n' then ([], cs)
    else
      let p := splitLine cs
      (c :: p.1, p.2)

/-- `getline`: fails at end of input, otherwise yields the next line
(newline consumed, not included). -/
def getline : List Char → Option (List Char × List Char)
  | [] => none
  | c :: cs => some (splitLine (c :: cs))

/-- `parseTwoLineReport` (lines 77-93): open the file, read two lines,
extract two numeric tokens from each.  Yields the four lexed tokens
`(startA1, startAlt, endA1, endAlt)` or `none` on any failure. -/
def parseTwoLineReport (file : Option (List Char)) :
    Option (NumTok × NumTok × NumTok × NumTok) :=
  match file with
  | none => none
  | some cs =>
    match getline cs with
    | none => none
    | some (l1, rest) =>
      match parseTwoToks l1 with
      | none => none
      | some (t1, t2) =>
        match getline rest with
        | none => none
        | some (l2, _) =>
          match parseTwoToks l2 with
          | none => none
          | some (t3, t4) => some (t1, t2, t3, t4)

/-- `runSingleTrajectory` (lines 169-205), restricted to the part that
determines the returned `Result`: the zero-initialised not-ok record is
returned when the report does not parse; otherwise lifetime is end time
minus start time and the final altitude is the end altitude.  `file` is
the content of the per-trial report the engine wrote (`none` when it
cannot be opened). -/
def runSingleTrajectory (id : ℕ) (t : Trial) (file : Option (List Char)) : Result :=
  match parseTwoLineReport file with
  | none => { id := id, lifetime_days := 0, end_alt_km := 0, trial := t, ok := false }
  | some (s1, _sa, e1, ea) =>
    { id := id, lifetime_days := e1.val - s1.val, end_alt_km := ea.val
      trial := t, ok := true }

/-- `isBetter` (lines 217-226) at its default epsilon `1e-9`. -/
def isBetter (a b : Result) : Bool :=
  if !a.ok then false
  else if !b.ok then true
  else if a.lifetime_days > b.lifetime_days + eps then true
  else if b.lifetime_days > a.lifetime_days + eps then false
  else a.trial.h0_km > b.trial.h0_km

/-- One accumulator update of the reduction: lines 240 and 254 both read
`if (isBetter(incoming, best)) best = incoming`. -/
def betterStep (acc r : Result) : Result := if isBetter r acc then r else acc

/-- The zero-initialised invalid sentinel `Result localBest{};
localBest.ok = false;` (lines 229-230, and `Result result{}` line 185). -/
def initialBest : Result := { id := 0, lifetime_days := 0, end_alt_km := 0
                              trial := { h0_km := 0, Cd := 0, A2M := 0 }, ok := false }

/-- The per-trial tail of the worker loop body (lines 238-241): a
successful result is printed (modelled by appending it to the output
list) and folded into the local best; a failed one is skipped entirely.
The accumulator is (printed results, local best). -/
def workerStep (acc : List Result × Result) (r : Result) : List Result × Result :=
  if r.ok then (acc.1 ++ [r], betterStep acc.2 r) else acc

/-- The coordinator fold (lines 245-255): start from its own local best
and fold every received record through `betterStep`. -/
def foldBest (seedRec : Result) (rs : List Result) : Result :=
  rs.foldl betterStep seedRec

/-- The final report decision (lines 258-268): the coordinator prints
the global best when it is valid, otherwise the explicit
no-successful-runs outcome (modelled as `none`). -/
def coordinatorOutcome (localBest : Result) (received : List Result) : Option Result :=
  let g := foldBest localBest received
  if g.ok then some g else none

/-- The lifetimes of `a` and `b` are either exactly equal or separated
by more than the comparison epsilon. -/
def epsSeparated (a b : Result) : Prop :=
  a.lifetime_days = b.lifetime_days ∨ eps < |a.lifetime_days - b.lifetime_days|

/-- A concrete instance of the abstract generator model, used to
instantiate the determinism statements on explicit inputs. -/
def natStream : RandModel :=
  { srand := fun s => s, next := fun s => (s % (RAND_MAX + 1), s + 1) }

lemma eps_pos : (0 : ℚ) < eps := by norm_num [eps]

lemma isBetter_invalid_left (a b : Result) (h : a.ok = false) : isBetter a b = false := by
  simp [isBetter, h]

lemma isBetter_valid_invalid (a b : Result) (ha : a.ok = true) (hb : b.ok = false) :
    isBetter a b = true := by
  simp [isBetter, ha, hb]

lemma isBetter_valid_iff (a b : Result) (ha : a.ok = true) (hb : b.ok = true) :
    isBetter a b = true ↔
      b.lifetime_days + eps < a.lifetime_days ∨
        (|a.lifetime_days - b.lifetime_days| ≤ eps ∧
          b.trial.h0_km < a.trial.h0_km) := by
  simp only [isBetter, ha, hb, Bool.not_true, Bool.false_eq_true, if_false]
  split_ifs with h1 h2
  · simp only [true_iff]
    exact Or.inl h1
  · simp only [Bool.false_eq_true, false_iff]
    rintro (h | ⟨habs, _⟩)
    · linarith
    · rcases abs_le.mp habs with ⟨hl, _⟩
      linarith
  · simp only [decide_eq_true_eq]
    constructor
    · intro h
      exact Or.inr ⟨abs_le.mpr ⟨by linarith, by linarith⟩, h⟩
    · rintro (h | ⟨_, h⟩)
      · exact absurd h h1
      · exact h

lemma isBetter_asymm (a b : Result) (h : isBetter a b = true) : isBetter b a = false := by
  cases ha : a.ok
  · rw [isBetter_invalid_left a b ha] at h
    exact absurd h (by simp)
  · cases hb : b.ok
    · exact isBetter_invalid_left b a hb
    · rw [isBetter_valid_iff a b ha hb] at h
      refine Bool.eq_false_iff.mpr fun hcon => ?_
      rw [isBetter_valid_iff b a hb ha] at hcon
      have he := eps_pos
      rcases h with h | ⟨habs, hh⟩ <;> rcases hcon with h2 | ⟨habs2, hh2⟩
      · linarith
      · rcases abs_le.mp habs2 with ⟨hl, hr⟩
        linarith
      · rcases abs_le.mp habs with ⟨hl, hr⟩
        linarith
      · linarith

lemma isBetter_irrefl (a : Result) : isBetter a a = false := by
  cases ha : a.ok
  · exact isBetter_invalid_left _ _ ha
  · refine Bool.eq_false_iff.mpr fun hcon => ?_
    rw [isBetter_valid_iff a a ha ha] at hcon
    have he := eps_pos
    rcases hcon with h | ⟨_, hh⟩
    · linarith
    · exact lt_irrefl _ hh

/-- Claim C3: for every pair of Results, `isBetter a b` is false when
`a` is invalid; true when `a` is valid and `b` invalid; and for two
valid records it is true exactly when the lifetime of `a` exceeds that
of `b` by more than epsilon, or the lifetimes are within epsilon and
the initial altitude of `a` is strictly greater. -/
theorem isBetter_spec (a b : Result) :
    isBetter a b = true ↔
      (a.ok = true ∧ b.ok = false) ∨
        (a.ok = true ∧ b.ok = true ∧
          (b.lifetime_days + eps < a.lifetime_days ∨
            (|a.lifetime_days - b.lifetime_days| ≤ eps ∧
              b.trial.h0_km < a.trial.h0_km))) := by
  cases ha : a.ok
  · simp [isBetter_invalid_left a b ha]
  · cases hb : b.ok
    · simp [isBetter_valid_invalid a b ha hb]
    · rw [isBetter_valid_iff a b ha hb]
      simp

/-- Claim C1, counterexample: three valid Results on which `isBetter`
fails transitivity.  The lifetimes are 0, 1e-9 and 2e-9: adjacent pairs
are within epsilon (ties broken by decreasing altitude), but the outer
pair differs by 2e-9 > epsilon, so the first record does not beat the
third. -/
theorem isBetter_not_transitive :
    isBetter ⟨0, 0, 0, ⟨3, 2, 0⟩, true⟩ ⟨1, 1 / 1000000000, 0, ⟨2, 2, 0⟩, true⟩ = true ∧
    isBetter ⟨1, 1 / 1000000000, 0, ⟨2, 2, 0⟩, true⟩ ⟨2, 2 / 1000000000, 0, ⟨1, 2, 0⟩, true⟩ = true ∧
    isBetter ⟨0, 0, 0, ⟨3, 2, 0⟩, true⟩ ⟨2, 2 / 1000000000, 0, ⟨1, 2, 0⟩, true⟩ = false := by
  refine ⟨?_, ?_, ?_⟩ <;> norm_num [isBetter, eps]

/-- Claim C1, amended: `isBetter` is transitive on valid Results whose
lifetimes are pairwise either exactly equal or separated by more than
the epsilon (the counterexample above is an epsilon chain, which the
amendment excludes). -/
theorem isBetter_trans_of_separated (a b c : Result)
    (ha : a.ok = true) (hb : b.ok = true) (hc : c.ok = true)
    (sab : epsSeparated a b) (sbc : epsSeparated b c) (sac : epsSeparated a c)
    (h1 : isBetter a b = true) (h2 : isBetter b c = true) :
    isBetter a c = true := by
  have he := eps_pos
  rw [isBetter_valid_iff a b ha hb] at h1
  rw [isBetter_valid_iff b c hb hc] at h2
  rw [isBetter_valid_iff a c ha hc]
  have hab : b.lifetime_days + eps < a.lifetime_days ∨
      (a.lifetime_days = b.lifetime_days ∧ b.trial.h0_km < a.trial.h0_km) := by
    rcases h1 with h | ⟨habs, hh⟩
    · exact Or.inl h
    · rcases sab with hsep | hsep
      · exact Or.inr ⟨hsep, hh⟩
      · rcases abs_le.mp habs with ⟨hl, hr⟩
        linarith [abs_le.mpr (show -eps ≤ a.lifetime_days - b.lifetime_days ∧
          a.lifetime_days - b.lifetime_days ≤ eps from ⟨hl, hr⟩)]
  have hbc : c.lifetime_days + eps < b.lifetime_days ∨
      (b.lifetime_days = c.lifetime_days ∧ c.trial.h0_km < b.trial.h0_km) := by
    rcases h2 with h | ⟨habs, hh⟩
    · exact Or.inl h
    · rcases sbc with hsep | hsep
      · exact Or.inr ⟨hsep, hh⟩
      · rcases abs_le.mp habs with ⟨hl, hr⟩
        linarith [abs_le.mpr (show -eps ≤ b.lifetime_days - c.lifetime_days ∧
          b.lifetime_days - c.lifetime_days ≤ eps from ⟨hl, hr⟩)]
  rcases hab with hab | ⟨hab, hha⟩ <;> rcases hbc with hbc | ⟨hbc, hhb⟩
  · exact Or.inl (by linarith)
  · exact Or.inl (by linarith)
  · exact Or.inl (by linarith)
  · refine Or.inr ⟨?_, lt_trans hhb hha⟩
    rw [hab, hbc, sub_self, abs_zero]
    exact le_of_lt he

/-- Witness for the amended C1 on concrete separated inputs. -/
theorem isBetter_trans_of_separated_witness :
    isBetter ⟨0, 5, 0, ⟨3, 2, 0⟩, true⟩ ⟨2, 1, 0, ⟨1, 2, 0⟩, true⟩ = true :=
  isBetter_trans_of_separated ⟨0, 5, 0, ⟨3, 2, 0⟩, true⟩ ⟨1, 3, 0, ⟨2, 2, 0⟩, true⟩
    ⟨2, 1, 0, ⟨1, 2, 0⟩, true⟩ rfl rfl rfl
    (Or.inr (by norm_num [eps])) (Or.inr (by norm_num [eps])) (Or.inr (by norm_num [eps]))
    (by norm_num [isBetter, eps]) (by norm_num [isBetter, eps])

lemma foldBest_cons (seedRec r : Result) (rs : List Result) :
    foldBest seedRec (r :: rs) = foldBest (betterStep seedRec r) rs := rfl

lemma foldBest_fixed (m : Result) (rs : List Result)
    (hall : ∀ x ∈ rs, x = m ∨ isBetter m x = true) : foldBest m rs = m := by
  induction rs with
  | nil => rfl
  | cons r rs ih =>
    have hstep : betterStep m r = m := by
      rcases hall r (List.mem_cons_self r rs) with rfl | hr
      · simp [betterStep, isBetter_irrefl]
      · simp [betterStep, isBetter_asymm m r hr]
    rw [foldBest_cons, hstep]
    exact ih fun x hx => hall x (List.mem_cons_of_mem r hx)

lemma foldBest_dominant (m : Result) :
    ∀ (rs : List Result) (seedRec : Result), m ∈ rs →
      isBetter m seedRec = true →
      (∀ x ∈ rs, x = m ∨ isBetter m x = true) →
      foldBest seedRec rs = m := by
  intro rs
  induction rs with
  | nil => intro seedRec hm _ _; cases hm
  | cons r rs ih =>
    intro seedRec hm hseed hall
    rw [foldBest_cons]
    rcases hall r (List.mem_cons_self r rs) with rfl | hbr
    · have hstep : betterStep seedRec r = r := by simp [betterStep, hseed]
      rw [hstep]
      exact foldBest_fixed r rs fun x hx => hall x (List.mem_cons_of_mem r hx)
    · have hmr : m ∈ rs := by
        rcases List.mem_cons.mp hm with rfl | hm2
        · rw [isBetter_irrefl] at hbr
          exact absurd hbr (by simp)
        · exact hm2
      have hseed2 : isBetter m (betterStep seedRec r) = true := by
        unfold betterStep
        split_ifs
        · exact hbr
        · exact hseed
      exact ih (betterStep seedRec r) hmr hseed2
        fun x hx => hall x (List.mem_cons_of_mem r hx)

/-- Claim C2, counterexample: the reduction is not order-independent.
Two valid records with equal lifetime and equal initial altitude tie in
both directions under `isBetter`, so the fold keeps whichever arrives
first, and the two permutations of the same two records yield different
Global Bests. -/
theorem foldBest_order_dependent :
    List.Perm [(⟨1, 5, 0, ⟨700, 2, 0⟩, true⟩ : Result), ⟨2, 5, 0, ⟨700, 2, 0⟩, true⟩]
      [⟨2, 5, 0, ⟨700, 2, 0⟩, true⟩, ⟨1, 5, 0, ⟨700, 2, 0⟩, true⟩] ∧
    foldBest initialBest [⟨1, 5, 0, ⟨700, 2, 0⟩, true⟩, ⟨2, 5, 0, ⟨700, 2, 0⟩, true⟩] ≠
      foldBest initialBest [⟨2, 5, 0, ⟨700, 2, 0⟩, true⟩, ⟨1, 5, 0, ⟨700, 2, 0⟩, true⟩] := by
  constructor
  · exact List.Perm.swap _ _ _
  · have h1 : foldBest initialBest
        [(⟨1, 5, 0, ⟨700, 2, 0⟩, true⟩ : Result), ⟨2, 5, 0, ⟨700, 2, 0⟩, true⟩] =
        ⟨1, 5, 0, ⟨700, 2, 0⟩, true⟩ := by
      norm_num [foldBest, betterStep, isBetter, initialBest, eps]
    have h2 : foldBest initialBest
        [(⟨2, 5, 0, ⟨700, 2, 0⟩, true⟩ : Result), ⟨1, 5, 0, ⟨700, 2, 0⟩, true⟩] =
        ⟨2, 5, 0, ⟨700, 2, 0⟩, true⟩ := by
      norm_num [foldBest, betterStep, isBetter, initialBest, eps]
    rw [h1, h2]
    simp

/-- Claim C2, amended: folding the records in any permutation order
yields the same Global Best provided the records contain a dominant
element: one that beats the initial accumulator and every other record
under `isBetter`.  (Without such an element the fold is order-dependent,
as the counterexample shows.) -/
theorem foldBest_perm_invariant (seedRec m : Result) (rs1 rs2 : List Result)
    (hperm : List.Perm rs1 rs2) (hm : m ∈ rs1)
    (hseed : isBetter m seedRec = true)
    (hall : ∀ x ∈ rs1, x = m ∨ isBetter m x = true) :
    foldBest seedRec rs1 = foldBest seedRec rs2 ∧ foldBest seedRec rs1 = m := by
  have h1 := foldBest_dominant m rs1 seedRec hm hseed hall
  have h2 := foldBest_dominant m rs2 seedRec (hperm.subset hm) hseed
    fun x hx => hall x (hperm.symm.subset hx)
  rw [h1, h2]
  exact ⟨rfl, rfl⟩

/-- Witness for the amended C2 on two concrete records with a dominant
element. -/
theorem foldBest_perm_invariant_witness :
    foldBest initialBest [(⟨1, 9, 0, ⟨700, 2, 0⟩, true⟩ : Result), ⟨2, 5, 0, ⟨701, 2, 0⟩, true⟩] =
      foldBest initialBest [⟨2, 5, 0, ⟨701, 2, 0⟩, true⟩, ⟨1, 9, 0, ⟨700, 2, 0⟩, true⟩] ∧
    foldBest initialBest [(⟨1, 9, 0, ⟨700, 2, 0⟩, true⟩ : Result), ⟨2, 5, 0, ⟨701, 2, 0⟩, true⟩] =
      ⟨1, 9, 0, ⟨700, 2, 0⟩, true⟩ :=
  foldBest_perm_invariant initialBest ⟨1, 9, 0, ⟨700, 2, 0⟩, true⟩
    [⟨1, 9, 0, ⟨700, 2, 0⟩, true⟩, ⟨2, 5, 0, ⟨701, 2, 0⟩, true⟩]
    [⟨2, 5, 0, ⟨701, 2, 0⟩, true⟩, ⟨1, 9, 0, ⟨700, 2, 0⟩, true⟩]
    (List.Perm.swap _ _ _) (List.mem_cons_self _ _)
    (by norm_num [isBetter, initialBest])
    (by
      intro x hx
      rcases List.mem_cons.mp hx with rfl | hx2
      · exact Or.inl rfl
      · rcases List.mem_singleton.mp hx2 with rfl
        exact Or.inr (by norm_num [isBetter, eps]))

lemma foldBest_all_invalid (l : List Result) (s : Result)
    (hl : ∀ r ∈ l, r.ok = false) : foldBest s l = s := by
  induction l with
  | nil => rfl
  | cons r l ih =>
    have hstep : betterStep s r = s := by
      simp [betterStep, isBetter_invalid_left r s (hl r (List.mem_cons_self r l))]
    rw [foldBest_cons, hstep]
    exact ih fun x hx => hl x (List.mem_cons_of_mem r hx)

/-- Claim C7: an invalid record never replaces the accumulator (valid or
not), so when the coordinator seed and every received record are invalid
the Global Best stays invalid and the coordinator reports the explicit
no-successful-runs outcome. -/
theorem all_invalid_stays_invalid (rcv acc seedRec : Result) (rs : List Result)
    (hrcv : rcv.ok = false) (hseed : seedRec.ok = false)
    (hall : ∀ r ∈ rs, r.ok = false) :
    betterStep acc rcv = acc ∧
      (foldBest seedRec rs).ok = false ∧
      coordinatorOutcome seedRec rs = none := by
  refine ⟨?_, ?_, ?_⟩
  · simp [betterStep, isBetter_invalid_left rcv acc hrcv]
  · rw [foldBest_all_invalid rs seedRec hall]
    exact hseed
  · simp [coordinatorOutcome, foldBest_all_invalid rs seedRec hall, hseed]

/-- Witness for C7 on a concrete all-invalid reduction, with a valid
accumulator on the side. -/
theorem all_invalid_stays_invalid_witness :
    betterStep ⟨1, 9, 0, ⟨700, 2, 0⟩, true⟩ ⟨5, 3, 1, ⟨600, 2, 0⟩, false⟩ =
      ⟨1, 9, 0, ⟨700, 2, 0⟩, true⟩ ∧
    (foldBest initialBest [(⟨5, 3, 1, ⟨600, 2, 0⟩, false⟩ : Result)]).ok = false ∧
    coordinatorOutcome initialBest [(⟨5, 3, 1, ⟨600, 2, 0⟩, false⟩ : Result)] = none :=
  all_invalid_stays_invalid ⟨5, 3, 1, ⟨600, 2, 0⟩, false⟩ ⟨1, 9, 0, ⟨700, 2, 0⟩, true⟩
    initialBest [⟨5, 3, 1, ⟨600, 2, 0⟩, false⟩] rfl rfl
    (by
      intro r hr
      rcases List.mem_singleton.mp hr with rfl
      rfl)

lemma strideAux_ge (N W : ℕ) :
    ∀ (fuel r i : ℕ), i ∈ strideAux N W fuel r → r ≤ i := by
  intro fuel
  induction fuel with
  | zero =>
    intro r i h
    simp [strideAux] at h
  | succ fuel ih =>
    intro r i h
    simp only [strideAux] at h
    split_ifs at h with hr
    · rcases List.mem_cons.mp h with rfl | h2
      · exact le_refl i
      · exact le_trans (Nat.le_add_right r W) (ih (r + W) i h2)
    · simp at h

lemma strideAux_mem (N W : ℕ) (hW : 0 < W) :
    ∀ (fuel r : ℕ), N - r ≤ fuel →
      ∀ i, i ∈ strideAux N W fuel r ↔ (i < N ∧ ∃ k, i = r + k * W) := by
  intro fuel
  induction fuel with
  | zero =>
    intro r hfuel i
    simp only [strideAux, List.not_mem_nil, false_iff]
    rintro ⟨hiN, k, rfl⟩
    have hge : r ≤ r + k * W := Nat.le_add_right r _
    omega
  | succ fuel ih =>
    intro r hfuel i
    simp only [strideAux]
    split_ifs with hr
    · rw [List.mem_cons, ih (r + W) (by omega) i]
      constructor
      · rintro (rfl | ⟨hiN, k, rfl⟩)
        · exact ⟨hr, 0, by simp⟩
        · exact ⟨hiN, k + 1, by ring⟩
      · rintro ⟨hiN, k, rfl⟩
        cases k with
        | zero => exact Or.inl (by simp)
        | succ k => exact Or.inr ⟨hiN, k, by ring⟩
    · simp only [List.not_mem_nil, false_iff]
      rintro ⟨hiN, k, rfl⟩
      have hge : r ≤ r + k * W := Nat.le_add_right r _
      omega

lemma strideIndices_mem (N W r : ℕ) (hW : 0 < W) (i : ℕ) :
    i ∈ strideIndices N W r ↔ (i < N ∧ ∃ k, i = r + k * W) :=
  strideAux_mem N W hW N r (Nat.sub_le N r) i

lemma stride_mod_iff (W r i : ℕ) (hr : r < W) :
    (∃ k, i = r + k * W) ↔ i % W = r := by
  constructor
  · rintro ⟨k, rfl⟩
    rw [Nat.add_mul_mod_self_right]
    exact Nat.mod_eq_of_lt hr
  · intro h
    refine ⟨i / W, ?_⟩
    have h2 := Nat.div_add_mod' i W
    omega

lemma strideAux_sorted (N W : ℕ) (hW : 0 < W) :
    ∀ (fuel r : ℕ), List.Sorted (· < ·) (strideAux N W fuel r) := by
  intro fuel
  induction fuel with
  | zero => intro r; simp [strideAux]
  | succ fuel ih =>
    intro r
    simp only [strideAux]
    split_ifs with hr
    · refine List.sorted_cons.mpr ⟨?_, ih (r + W)⟩
      intro b hb
      have hge := strideAux_ge N W fuel (r + W) b hb
      omega
    · simp

/-- Claim C5: for `W ≥ 1` workers and any total `N`, rank `r` processes
exactly the indices `r, r+W, r+2W, ...` below `N` in strictly increasing
order, and every index below `N` is processed by exactly the one rank
equal to its residue modulo `W`: a partition of 0..N-1 with no index
duplicated or omitted. -/
theorem stride_partition (N W : ℕ) (hW : 0 < W) :
    (∀ r, List.Sorted (· < ·) (strideIndices N W r)) ∧
      (∀ r, r < W → ∀ i, i ∈ strideIndices N W r ↔ (i < N ∧ i % W = r)) ∧
      (∀ i, i < N → ∀ r, r < W → (i ∈ strideIndices N W r ↔ i % W = r)) := by
  refine ⟨fun r => strideAux_sorted N W hW N r, ?_, ?_⟩
  · intro r hr i
    rw [strideIndices_mem N W r hW i, stride_mod_iff W r i hr]
  · intro i hiN r hr
    rw [strideIndices_mem N W r hW i, stride_mod_iff W r i hr]
    simp [hiN]

/-- Witness for C5 with `N = 20`, `W = 3`. -/
theorem stride_partition_witness :
    List.Sorted (· < ·) (strideIndices 20 3 1) ∧
      ((7 : ℕ) ∈ strideIndices 20 3 1 ↔ (7 < 20 ∧ 7 % 3 = 1)) :=
  ⟨(stride_partition 20 3 (by norm_num)).1 1,
    (stride_partition 20 3 (by norm_num)).2.1 1 (by norm_num) 7⟩

lemma workerGen_eq_map (M : RandModel) (seed : ℕ) :
    ∀ (idxs : List ℕ) (st : ℕ),
      workerGen M seed idxs st = idxs.map fun i => (i, trialAt M seed i) := by
  intro idxs
  induction idxs with
  | nil => intro st; rfl
  | cons i is ih =>
    intro st
    simp only [workerGen, List.map_cons]
    rw [ih]
    rfl

/-- Claim C4: trial generation is deterministic per index.  Whatever
rank processes index `i` (any stride parameters), and whatever the state
of the shared generator when the iteration starts, the trial recorded
for `i` is the pure function `trialAt` of the global seed and `i` alone,
because the generator is reseeded with `seed + i` immediately before
sampling. -/
theorem trial_determinism_by_index (M : RandModel)
    (seed N W1 r1 st1 W2 r2 st2 i : ℕ) (t1 t2 : Trial)
    (h1 : (i, t1) ∈ workerGen M seed (strideIndices N W1 r1) st1)
    (h2 : (i, t2) ∈ workerGen M seed (strideIndices N W2 r2) st2) :
    t1 = trialAt M seed i ∧ t2 = trialAt M seed i ∧ t1 = t2 := by
  rw [workerGen_eq_map] at h1 h2
  have e1 : t1 = trialAt M seed i := by
    rcases List.mem_map.mp h1 with ⟨j, _, hj⟩
    rw [Prod.mk.injEq] at hj
    obtain ⟨hji, hjt⟩ := hj
    subst hji
    exact hjt.symm
  have e2 : t2 = trialAt M seed i := by
    rcases List.mem_map.mp h2 with ⟨j, _, hj⟩
    rw [Prod.mk.injEq] at hj
    obtain ⟨hji, hjt⟩ := hj
    subst hji
    exact hjt.symm
  exact ⟨e1, e2, e1.trans e2.symm⟩

/-- Witness for C4: index 3 is processed both by rank 1 of 2 workers and
by rank 3 of 5 workers, from different generator states, and both record
the same trial. -/
theorem trial_determinism_by_index_witness :
    ((3 : ℕ), trialAt natStream 1234 3) ∈
        workerGen natStream 1234 (strideIndices 10 2 1) 0 ∧
      ((3 : ℕ), trialAt natStream 1234 3) ∈
        workerGen natStream 1234 (strideIndices 10 5 3) 99 ∧
      trialAt natStream 1234 3 = trialAt natStream 1234 3 := by
  have hm1 : ((3 : ℕ), trialAt natStream 1234 3) ∈
      workerGen natStream 1234 (strideIndices 10 2 1) 0 := by
    rw [workerGen_eq_map]
    exact List.mem_map_of_mem _ (by decide)
  have hm2 : ((3 : ℕ), trialAt natStream 1234 3) ∈
      workerGen natStream 1234 (strideIndices 10 5 3) 99 := by
    rw [workerGen_eq_map]
    exact List.mem_map_of_mem _ (by decide)
  exact ⟨hm1, hm2,
    (trial_determinism_by_index natStream 1234 10 2 1 0 5 3 99 3 _ _ hm1 hm2).2.2⟩

/-- Claim C6: a report that is missing, has fewer than two lines, or
whose first two lines do not start with numeric tokens makes the
adapter return an invalid Result, and the worker loop neither prints
that trial nor lets it take part in the local-best comparison. -/
theorem unparseable_report_skipped (id : ℕ) (t : Trial) (file : Option (List Char))
    (acc : List Result × Result)
    (h : file = none ∨
      ∃ cs, file = some cs ∧
        (getline cs = none ∨
          (∃ l1 r1, getline cs = some (l1, r1) ∧ getline r1 = none) ∨
          (∃ l1 r1, getline cs = some (l1, r1) ∧ parseTwoToks l1 = none) ∨
          (∃ l1 r1 l2 r2, getline cs = some (l1, r1) ∧ getline r1 = some (l2, r2) ∧
            parseTwoToks l2 = none))) :
    (runSingleTrajectory id t file).ok = false ∧
      workerStep acc (runSingleTrajectory id t file) = acc := by
  have hp : parseTwoLineReport file = none := by
    rcases h with rfl | ⟨cs, rfl, hcase⟩
    · rfl
    · rcases hcase with hg | ⟨l1, r1, hg1, hg2⟩ | ⟨l1, r1, hg1, hp1⟩ |
        ⟨l1, r1, l2, r2, hg1, hg2, hp2⟩
      · simp [parseTwoLineReport, hg]
      · cases hpt : parseTwoToks l1 with
        | none => simp [parseTwoLineReport, hg1, hpt]
        | some p =>
          obtain ⟨pa, pb⟩ := p
          simp [parseTwoLineReport, hg1, hpt, hg2]
      · simp [parseTwoLineReport, hg1, hp1]
      · cases hpt : parseTwoToks l1 with
        | none => simp [parseTwoLineReport, hg1, hpt]
        | some p =>
          obtain ⟨pa, pb⟩ := p
          simp [parseTwoLineReport, hg1, hpt, hg2, hp2]
  have hok : (runSingleTrajectory id t file).ok = false := by
    simp [runSingleTrajectory, hp]
  refine ⟨hok, ?_⟩
  simp [workerStep, hok]

/-- Witness for C6 at the missing-file input. -/
theorem unparseable_report_skipped_witness :
    (runSingleTrajectory 4 ⟨600, 2, 0⟩ none).ok = false ∧
      workerStep ([], initialBest) (runSingleTrajectory 4 ⟨600, 2, 0⟩ none) =
        ([], initialBest) :=
  unparseable_report_skipped 4 ⟨600, 2, 0⟩ none ([], initialBest) (Or.inl rfl)

/-- Claim C8: parsing the well-formed two-line report
"0.0 850.0\n5.3 121.9\n" succeeds with lifetime 5.3 (end time minus
start time), end altitude 121.9, and ok set. -/
theorem parse_wellformed_report :
    (runSingleTrajectory 7 ⟨600, 2, 0⟩ (some ("0.0 850.0\n5.3 121.9\n".toList))).ok = true ∧
      (runSingleTrajectory 7 ⟨600, 2, 0⟩
        (some ("0.0 850.0\n5.3 121.9\n".toList))).lifetime_days = 5.3 ∧
      (runSingleTrajectory 7 ⟨600, 2, 0⟩
        (some ("0.0 850.0\n5.3 121.9\n".toList))).end_alt_km = 121.9 := by
  have hp : parseTwoLineReport (some ("0.0 850.0\n5.3 121.9\n".toList)) =
      some (⟨false, 0, 0, 1, false, 0⟩, ⟨false, 850, 0, 1, false, 0⟩,
        ⟨false, 5, 3, 1, false, 0⟩, ⟨false, 121, 9, 1, false, 0⟩) := by decide
  refine ⟨?_, ?_, ?_⟩ <;> (simp only [runSingleTrajectory]; rw [hp]) <;>
    norm_num [NumTok.val]

/-- Claim C9 (code bug): `rand()` ranges over 0 .. RAND_MAX inclusive,
so `urand` = rand()/RAND_MAX attains 1.0 exactly when rand() returns
RAND_MAX, and the affinely mapped parameters then attain the upper
endpoints 1000, 2.6 and 0.05 of their ranges — contradicting the
half-open intervals stated by the spec and by the comments in the
code itself (`[0,1.0)`, for which the divisor would have to be
RAND_MAX + 1). -/
theorem urand_attains_upper_endpoint :
    urand RAND_MAX = 1 ∧
      (generateRandomLEO RAND_MAX RAND_MAX RAND_MAX).h0_km = 1000 ∧
      (generateRandomLEO RAND_MAX RAND_MAX RAND_MAX).Cd = 2.6 ∧
      (generateRandomLEO RAND_MAX RAND_MAX RAND_MAX).A2M = 0.05 := by
  norm_num [urand, generateRandomLEO, RAND_MAX]

/-- Claim C10: the adapter succeeds exactly when the file opens and each
of its first two lines starts with two numeric tokens; trailing tokens
on a line and lines beyond the second are ignored (the parse result is
determined by the four lexed tokens alone); and no semantic validation
happens: an end time before the start time still parses with ok set,
producing a negative lifetime that is printed and takes part in the
local-best comparison. -/
theorem parse_no_semantic_validation (id : ℕ) (t : Trial)
    (acc : List Result × Result) (cs l1 r1 l2 r2 : List Char)
    (s1 sa e1 ea : NumTok)
    (hg1 : getline cs = some (l1, r1)) (hg2 : getline r1 = some (l2, r2))
    (hl1 : parseTwoToks l1 = some (s1, sa)) (hl2 : parseTwoToks l2 = some (e1, ea))
    (hneg : e1.val < s1.val) :
    (∀ file : Option (List Char), (runSingleTrajectory id t file).ok = true ↔
        ∃ cs2 p q, file = some cs2 ∧ getline cs2 = some p ∧ getline p.2 = some q ∧
          (parseTwoToks p.1).isSome = true ∧ (parseTwoToks q.1).isSome = true) ∧
      parseTwoLineReport (some cs) = some (s1, sa, e1, ea) ∧
      (∀ (l : List Char) (a : NumTok) (rest : List Char) (b : NumTok) (rest2 : List Char),
        extractNum l = some (a, rest) → extractNum rest = some (b, rest2) →
          parseTwoToks l = some (a, b)) ∧
      (runSingleTrajectory id t (some cs)).ok = true ∧
      (runSingleTrajectory id t (some cs)).lifetime_days < 0 ∧
      workerStep acc (runSingleTrajectory id t (some cs)) =
        (acc.1 ++ [runSingleTrajectory id t (some cs)],
          betterStep acc.2 (runSingleTrajectory id t (some cs))) := by
  have hchar : ∀ file2 : Option (List Char), (runSingleTrajectory id t file2).ok = true ↔
      ∃ cs2 p q, file2 = some cs2 ∧ getline cs2 = some p ∧ getline p.2 = some q ∧
        (parseTwoToks p.1).isSome = true ∧ (parseTwoToks q.1).isSome = true := by
    intro file2
    constructor
    · intro hok
      cases file2 with
      | none => simp [runSingleTrajectory, parseTwoLineReport] at hok
      | some cs2 =>
        cases hga : getline cs2 with
        | none => simp [runSingleTrajectory, parseTwoLineReport, hga] at hok
        | some pa =>
          obtain ⟨la, ra⟩ := pa
          cases hpa : parseTwoToks la with
          | none => simp [runSingleTrajectory, parseTwoLineReport, hga, hpa] at hok
          | some qa =>
            obtain ⟨ta1, ta2⟩ := qa
            cases hgb : getline ra with
            | none =>
              simp [runSingleTrajectory, parseTwoLineReport, hga, hpa, hgb] at hok
            | some pb =>
              obtain ⟨lb, rb⟩ := pb
              cases hpb : parseTwoToks lb with
              | none =>
                simp [runSingleTrajectory, parseTwoLineReport, hga, hpa, hgb, hpb] at hok
              | some qb =>
                exact ⟨cs2, (la, ra), (lb, rb), rfl, hga, hgb, by simp [hpa], by simp [hpb]⟩
    · rintro ⟨cs2, ⟨la, ra⟩, ⟨lb, rb⟩, rfl, hga, hgb, hpa, hpb⟩
      obtain ⟨⟨ta1, ta2⟩, hpa2⟩ := Option.isSome_iff_exists.mp hpa
      obtain ⟨⟨tb1, tb2⟩, hpb2⟩ := Option.isSome_iff_exists.mp hpb
      simp [runSingleTrajectory, parseTwoLineReport, hga, hgb, hpa2, hpb2]
  have hb : parseTwoLineReport (some cs) = some (s1, sa, e1, ea) := by
    simp [parseTwoLineReport, hg1, hg2, hl1, hl2]
  have hrun : runSingleTrajectory id t (some cs) =
      ⟨id, e1.val - s1.val, ea.val, t, true⟩ := by
    simp only [runSingleTrajectory]
    rw [hb]
  have hok2 : (runSingleTrajectory id t (some cs)).ok = true := by rw [hrun]
  refine ⟨hchar, hb, ?_, hok2, ?_, ?_⟩
  · intro l a rest b rest2 hx1 hx2
    simp [parseTwoToks, hx1, hx2]
  · rw [hrun]
    exact sub_neg.mpr hneg
  · simp [workerStep, hok2]

/-- Witness for C10 on a concrete report with a trailing token on the
first line, a junk third line, and an end time before the start time. -/
theorem parse_no_semantic_validation_witness :
    (runSingleTrajectory 9 ⟨600, 2, 0⟩
        (some ("10.0 850.0 77\n4.0 500.0\njunk\n".toList))).ok = true ∧
      (runSingleTrajectory 9 ⟨600, 2, 0⟩
        (some ("10.0 850.0 77\n4.0 500.0\njunk\n".toList))).lifetime_days < 0 := by
  have hg1 : getline ("10.0 850.0 77\n4.0 500.0\njunk\n".toList) =
      some ("10.0 850.0 77".toList, "4.0 500.0\njunk\n".toList) := by decide
  have hg2 : getline ("4.0 500.0\njunk\n".toList) =
      some ("4.0 500.0".toList, "junk\n".toList) := by decide
  have hl1 : parseTwoToks ("10.0 850.0 77".toList) =
      some (⟨false, 10, 0, 1, false, 0⟩, ⟨false, 850, 0, 1, false, 0⟩) := by decide
  have hl2 : parseTwoToks ("4.0 500.0".toList) =
      some (⟨false, 4, 0, 1, false, 0⟩, ⟨false, 500, 0, 1, false, 0⟩) := by decide
  have hneg : NumTok.val ⟨false, 4, 0, 1, false, 0⟩ <
      NumTok.val ⟨false, 10, 0, 1, false, 0⟩ := by norm_num [NumTok.val]
  have h := parse_no_semantic_validation 9 ⟨600, 2, 0⟩ ([], initialBest)
    ("10.0 850.0 77\n4.0 500.0\njunk\n".toList) ("10.0 850.0 77".toList)
    ("4.0 500.0\njunk\n".toList) ("4.0 500.0".toList) ("junk\n".toList)
    ⟨false, 10, 0, 1, false, 0⟩ ⟨false, 850, 0, 1, false, 0⟩
    ⟨false, 4, 0, 1, false, 0⟩ ⟨false, 500, 0, 1, false, 0⟩
    hg1 hg2 hl1 hl2 hneg
  exact ⟨h.2.2.2.1, h.2.2.2.2.1⟩

end MonteCarlo
